import Mathlib

/-!
Verification of the dnstt server (package main of dnstt-server).

This file is a shallow embedding of the parts of the server that the checked
properties are about: the byte-budget constants, the query-side packet framing
read by nextPacket, the DNS state machine responseFor, the response bundling
and truncation in sendLoop, and the panic guard on packet lengths.

Bytes are modelled as Nat (the code guarantees values < 256 where it matters),
byte strings as List Nat, and DNS names as lists of labels. Go nil slices and
empty slices are identified (the server never distinguishes them). Parts of
the repository that the server imports but whose source is not available here
(the dns wire codec, the turbotunnel ClientID, the base32 codec) are modelled
from the specification; each such definition says so in its doc comment.
-/

namespace DnsttServer

/-- Constant maxUDPPayload from the server: 1280 - 40 - 8 = 1232, the largest
UDP payload the server will send. -/
def maxUDPPayload : Nat := 1280 - 40 - 8

/-- Constant maxEncodedPayload from the server: the global limit on the
encoded downstream packet bundle in one response. -/
def maxEncodedPayload : Nat := 930

/-- The MTU passed to conn.SetMtu in acceptSessions: maxEncodedPayload - 2,
leaving room for the 2-byte packet length tag. -/
def sessionMtu : Nat := maxEncodedPayload - 2

/-- Modelled from the spec: a dns.Name is a sequence of labels, each a byte
string. -/
abbrev Name := List (List Nat)

/-- Modelled from the spec: a dns package Question entry (name, type, class). -/
structure Question where
  QName : Name
  Typ : Nat
  Class : Nat
deriving DecidableEq

/-- Modelled from the spec: a dns package resource record. -/
structure RR where
  RName : Name
  Typ : Nat
  Class : Nat
  TTL : Nat
  Data : List Nat
deriving DecidableEq

/-- Modelled from the spec: a dns package Message with ID, 16-bit flags and
the Question, Answer and Additional sections (the server never touches the
Authority section). -/
structure Message where
  ID : Nat
  Flags : Nat
  Question : List Question
  Answer : List RR := []
  Additional : List RR := []
deriving DecidableEq

/-- Modelled from the spec: dns.RRTypeOPT, the EDNS(0) OPT pseudo-RR type. -/
def RRTypeOPT : Nat := 41

/-- Modelled from the spec: dns.RRTypeTXT, the TXT record type. -/
def RRTypeTXT : Nat := 16

/-- Modelled from the spec: dns.RcodeFormatError (FORMERR). -/
def RcodeFormatError : Nat := 1

/-- Modelled from the spec: dns.RcodeNameError (NXDOMAIN). -/
def RcodeNameError : Nat := 3

/-- Modelled from the spec: dns.RcodeNotImplemented (NOTIMPL). -/
def RcodeNotImplemented : Nat := 4

/-- Modelled from the spec: dns.ExtendedRcodeBadVers (BADVERS, extended
RCODE 16, split across the flags low nibble and the OPT TTL high bits). -/
def ExtendedRcodeBadVers : Nat := 16

/-- Error results of the bundle reader, standing for the Go io errors:
eof is io.EOF (clean end of bundle), unexpectedEof is io.ErrUnexpectedEOF
(truncation inside a padding skip or a packet body). -/
inductive ReadErr where
  | eof
  | unexpectedEof
deriving DecidableEq

/-- nextPacket from the server source: reads one length byte; a value
224..255 means skip that many minus 224 padding bytes and continue; a value
0..223 means the next that many bytes are one packet. A short read inside the
padding or the body is converted to unexpectedEof by the eof helper; running
out of input at a chunk boundary is a clean eof. -/
def nextPacket : List Nat → Except ReadErr (List Nat × List Nat)
  | [] => .error .eof
  | b :: rest =>
    if 224 ≤ b then
      if _h : rest.length < b - 224 then .error .unexpectedEof
      else nextPacket (rest.drop (b - 224))
    else
      if rest.length < b then .error .unexpectedEof
      else .ok (rest.take b, rest.drop b)
termination_by l => l.length
decreasing_by
  simp only [List.length_drop, List.length_cons]
  omega

theorem nextPacket_nil : nextPacket [] = .error .eof := by
  rw [nextPacket.eq_def]

theorem nextPacket_packet (b : Nat) (rest : List Nat) (hb : b < 224)
    (hlen : b ≤ rest.length) :
    nextPacket (b :: rest) = .ok (rest.take b, rest.drop b) := by
  rw [nextPacket.eq_def]
  simp [Nat.not_le.mpr hb, Nat.not_lt.mpr hlen]

theorem nextPacket_packet_eof (b : Nat) (rest : List Nat) (hb : b < 224)
    (hlen : rest.length < b) :
    nextPacket (b :: rest) = .error .unexpectedEof := by
  rw [nextPacket.eq_def]
  simp [Nat.not_le.mpr hb, hlen]

theorem nextPacket_padding (b : Nat) (rest : List Nat) (hb : 224 ≤ b)
    (hlen : b - 224 ≤ rest.length) :
    nextPacket (b :: rest) = nextPacket (rest.drop (b - 224)) := by
  rw [nextPacket.eq_def]
  simp [hb, Nat.not_lt.mpr hlen]

theorem nextPacket_padding_eof (b : Nat) (rest : List Nat) (hb : 224 ≤ b)
    (hlen : rest.length < b - 224) :
    nextPacket (b :: rest) = .error .unexpectedEof := by
  rw [nextPacket.eq_def]
  simp [hb, hlen]

theorem nextPacket_rest_length_le :
    ∀ (n : Nat) (data : List Nat), data.length ≤ n →
      ∀ p rest, nextPacket data = .ok (p, rest) → rest.length < data.length := by
  intro n
  induction n with
  | zero =>
    intro data hle p rest h
    have hnil : data = [] := List.eq_nil_of_length_eq_zero (Nat.le_zero.mp hle)
    subst hnil
    rw [nextPacket.eq_def] at h; simp at h
  | succ n ih =>
    intro data hle p rest h
    match data with
    | [] => rw [nextPacket.eq_def] at h; simp at h
    | b :: tail =>
      rw [nextPacket.eq_def] at h
      by_cases hb : 224 ≤ b
      · simp only [if_pos hb] at h
        by_cases hshort : tail.length < b - 224
        · rw [dif_pos hshort] at h
          cases h
        · rw [dif_neg hshort] at h
          have hlen : (tail.drop (b - 224)).length ≤ n := by
            simp only [List.length_drop]
            simp only [List.length_cons] at hle
            omega
          have := ih (tail.drop (b - 224)) hlen p rest h
          simp only [List.length_drop] at this
          simp only [List.length_cons]
          omega
      · simp only [if_neg hb] at h
        by_cases hshort : tail.length < b
        · simp [if_pos hshort] at h
        · simp only [if_neg hshort] at h
          cases h
          simp only [List.length_drop, List.length_cons]
          omega

theorem nextPacket_rest_length (data p rest : List Nat)
    (h : nextPacket data = .ok (p, rest)) : rest.length < data.length :=
  nextPacket_rest_length_le data.length data (Nat.le_refl _) p rest h

/-- The packet extraction loop of recvLoop: call nextPacket until it fails,
collecting the packets; each one is fed to QueueIncoming in this order. -/
def extractPackets (data : List Nat) : List (List Nat) :=
  match h : nextPacket data with
  | .ok pr => pr.1 :: extractPackets pr.2
  | .error _ => []
termination_by data.length
decreasing_by
  exact nextPacket_rest_length data pr.1 pr.2 h

theorem extractPackets_ok (data q rest : List Nat)
    (h : nextPacket data = .ok (q, rest)) :
    extractPackets data = q :: extractPackets rest := by
  rw [extractPackets]
  split
  · rename_i pr heq
    rw [h] at heq
    cases heq
    rfl
  · rename_i e heq
    rw [h] at heq
    cases heq

theorem extractPackets_err (data : List Nat) (e : ReadErr)
    (h : nextPacket data = .error e) : extractPackets data = [] := by
  rw [extractPackets]
  split
  · rename_i pr heq
    rw [h] at heq
    cases heq
  · rfl

theorem extractPackets_nil : extractPackets [] = [] :=
  extractPackets_err [] .eof nextPacket_nil

/-- The encoding sendLoop writes for one downstream packet: a 2-byte
big-endian length (binary.Write of uint16(len(p)), so the length is reduced
mod 65536) followed by the packet bytes. -/
def packetEncoding (p : List Nat) : List Nat :=
  p.length % 65536 / 256 :: p.length % 256 :: p

/-- A whole downstream bundle as sendLoop builds it: the packet encodings
concatenated. -/
def sendLoopEncode (ps : List (List Nat)) : List Nat :=
  (ps.map packetEncoding).flatten

/-- Modelled from the spec: the query-side framing of section 4.1 that
nextPacket parses, a single length byte (legal for packets of at most 223
bytes) followed by the packet bytes, concatenated over the bundle. -/
def queryEncode (ps : List (List Nat)) : List Nat :=
  (ps.map (fun p => p.length :: p)).flatten

/-- The condition of the panic in sendLoop: int(uint16(len(p))) != len(p),
with the uint16 conversion reducing mod 65536. -/
def sendLoopPanicGuard (p : List Nat) : Bool :=
  p.length % 65536 != p.length

/-- C6: for every input byte string, nextPacket yields the next n bytes as
one packet after a leading byte n in 0..223 (n = 0 giving an empty packet),
skips n - 224 padding bytes and resumes after a leading byte n in 224..255,
signals end-of-bundle (io.EOF) on a clean EOF at a packet boundary, and
signals truncation (io.ErrUnexpectedEOF) when the input ends inside a
padding skip or inside a packet body. -/
theorem nextPacket_spec (b : Nat) (rest : List Nat) :
    nextPacket [] = .error .eof ∧
    (b < 224 → b ≤ rest.length →
      nextPacket (b :: rest) = .ok (rest.take b, rest.drop b)) ∧
    (b < 224 → rest.length < b →
      nextPacket (b :: rest) = .error .unexpectedEof) ∧
    (224 ≤ b → b - 224 ≤ rest.length →
      nextPacket (b :: rest) = nextPacket (rest.drop (b - 224))) ∧
    (224 ≤ b → rest.length < b - 224 →
      nextPacket (b :: rest) = .error .unexpectedEof) ∧
    nextPacket (0 :: rest) = .ok ([], rest) := by
  refine ⟨nextPacket_nil, nextPacket_packet b rest, nextPacket_packet_eof b rest,
    nextPacket_padding b rest, nextPacket_padding_eof b rest, ?_⟩
  have h := nextPacket_packet 0 rest (by omega) (Nat.zero_le _)
  simpa using h

/-- Witness for nextPacket_spec at concrete inputs: a 2-byte packet, a
padding skip followed by a 1-byte packet, a truncated packet body, and a
truncated padding skip. -/
theorem nextPacket_spec_witness :
    nextPacket [2, 7, 8, 9] = .ok ([7, 8], [9]) ∧
    nextPacket [226, 7, 8, 1, 5] = .ok ([5], []) ∧
    nextPacket [2, 7] = .error .unexpectedEof ∧
    nextPacket [225] = .error .unexpectedEof := by
  refine ⟨?_, ?_, ?_, ?_⟩
  · have h := (nextPacket_spec 2 [7, 8, 9]).2.1 (by omega) (by simp)
    simpa using h
  · have h1 := (nextPacket_spec 226 [7, 8, 1, 5]).2.2.2.1 (by omega) (by simp)
    have h2 := (nextPacket_spec 1 [5]).2.1 (by omega) (by simp)
    simp only [h1]
    simpa using h2
  · exact (nextPacket_spec 2 [7]).2.2.1 (by omega) (by simp)
  · exact (nextPacket_spec 225 []).2.2.2.2.1 (by omega) (by simp)

/-- C4 counterexample: the bundle written by sendLoop for the single packet
[65] (total encoded size 3, well under the 930-byte capacity) is [0, 1, 65];
decoding it with nextPacket repeatedly yields [[], [65]], not [[65]]: the
2-byte big-endian writer of sendLoop is not the framing nextPacket parses. -/
theorem bundle_roundtrip_mismatch_cex :
    sendLoopEncode [[65]] = [0, 1, 65] ∧
    extractPackets (sendLoopEncode [[65]]) = [[], [65]] ∧
    extractPackets (sendLoopEncode [[65]]) ≠ [[65]] := by
  have henc : sendLoopEncode [[65]] = [0, 1, 65] := by
    simp [sendLoopEncode, packetEncoding]
  have e1 : nextPacket [0, 1, 65] = .ok ([], [1, 65]) := by
    have h := nextPacket_packet 0 [1, 65] (by omega) (by simp)
    simpa using h
  have e2 : nextPacket [1, 65] = .ok ([65], []) := by
    have h := nextPacket_packet 1 [65] (by omega) (by simp)
    simpa using h
  have hdec : extractPackets [0, 1, 65] = [[], [65]] := by
    rw [extractPackets_ok _ _ _ e1, extractPackets_ok _ _ _ e2, extractPackets_nil]
  refine ⟨henc, by rw [henc, hdec], by rw [henc, hdec]; simp⟩

/-- C4 as amended: nextPacket inverts the query-side framing it actually
parses: for every packet sequence whose packets are each shorter than 224
bytes, repeatedly applying nextPacket to the concatenation of the 1-byte
length-byte encodings yields exactly the original sequence. -/
theorem nextPacket_roundtrip (ps : List (List Nat))
    (h : ∀ p ∈ ps, p.length < 224) :
    extractPackets (queryEncode ps) = ps := by
  induction ps with
  | nil =>
    simp only [queryEncode, List.map_nil, List.flatten_nil]
    exact extractPackets_nil
  | cons p ps ih =>
    have hp : p.length < 224 := h p (by simp)
    have hrest : ∀ q ∈ ps, q.length < 224 := fun q hq => h q (by simp [hq])
    have henc : queryEncode (p :: ps) = p.length :: (p ++ queryEncode ps) := by
      simp [queryEncode]
    have hnp : nextPacket (p.length :: (p ++ queryEncode ps)) =
        .ok (p, queryEncode ps) := by
      have hlen : p.length ≤ (p ++ queryEncode ps).length := by simp
      rw [nextPacket_packet p.length (p ++ queryEncode ps) hp hlen,
        List.take_left, List.drop_left]
    rw [henc, extractPackets_ok _ _ _ hnp, ih hrest]

/-- Witness for nextPacket_roundtrip: round trip of two short packets. -/
theorem nextPacket_roundtrip_witness :
    extractPackets (queryEncode [[4, 5], [], [6]]) = [[4, 5], [], [6]] :=
  nextPacket_roundtrip [[4, 5], [], [6]] (by decide)

/-- C5 counterexample: the claimed identity is false: exact integer
arithmetic gives (1232 - 294) * 255 / 256 = 934, while maxEncodedPayload is
930 (the code comment calls 934 the precise limit and the constant is the
smaller, safe 930). -/
theorem maxEncodedPayload_formula_cex :
    (maxUDPPayload - 294) * 255 / 256 = 934 ∧
    maxEncodedPayload = 930 ∧
    maxEncodedPayload ≠ (maxUDPPayload - 294) * 255 / 256 := by
  refine ⟨by decide, by decide, by decide⟩

/-- C5 as amended: maxEncodedPayload is 930, four bytes below the exact
value 934 of (1232 - 294) * 255/256 under integer arithmetic, and the
reliable-transport MTU handed to SetMtu is exactly maxEncodedPayload - 2 =
928. -/
theorem maxEncodedPayload_value_mtu :
    maxEncodedPayload = 930 ∧
    maxEncodedPayload + 4 = (maxUDPPayload - 294) * 255 / 256 ∧
    maxEncodedPayload ≤ (maxUDPPayload - 294) * 255 / 256 ∧
    sessionMtu = maxEncodedPayload - 2 ∧
    sessionMtu = 928 := by
  refine ⟨by decide, by decide, by decide, by decide, by decide⟩

/-- C10: for every packet of length at most 65535 dequeued during response
assembly, the panic guard int(uint16(len(p))) != len(p) in sendLoop is
false, and the 2-byte big-endian length tag it writes decodes back to the
packet's true length. -/
theorem sendLoop_no_panic (p : List Nat) (h : p.length ≤ 65535) :
    sendLoopPanicGuard p = false ∧
    (packetEncoding p).take 2 = [p.length / 256, p.length % 256] ∧
    (packetEncoding p).getD 0 0 * 256 + (packetEncoding p).getD 1 0 =
      p.length := by
  have hm : p.length % 65536 = p.length := Nat.mod_eq_of_lt (by omega)
  refine ⟨?_, ?_, ?_⟩
  · simp [sendLoopPanicGuard, hm]
  · simp [packetEncoding, hm]
  · simp only [packetEncoding, hm, List.getD_cons_zero, List.getD_cons_succ]
    have := Nat.div_add_mod p.length 256
    omega

/-- Witness for sendLoop_no_panic on a concrete 3-byte packet. -/
theorem sendLoop_no_panic_witness :
    sendLoopPanicGuard [1, 2, 3] = false ∧
    (packetEncoding [1, 2, 3]).take 2 = [0, 3] := by
  have h := sendLoop_no_panic [1, 2, 3] (by simp)
  exact ⟨h.1, by rw [h.2.1]; decide⟩

/-- Modelled from the spec: Name.TrimSuffix of the dns package: when the
configured suffix matches the end of the name, the labels before it and
success; otherwise failure. -/
def TrimSuffix (name domain : Name) : Option Name :=
  if domain.length ≤ name.length ∧
      name.drop (name.length - domain.length) = domain then
    some (name.take (name.length - domain.length))
  else none

/-- bytes.ToUpper restricted to what the server feeds it: ASCII letters are
mapped to upper case, other bytes pass through. -/
def toUpperBytes (bs : List Nat) : List Nat :=
  bs.map (fun c => if 97 ≤ c ∧ c ≤ 122 then c - 32 else c)

/-- Modelled from the spec: the value of one character of the RFC 4648
base32 alphabet (A..Z then 2..7), for an already upper-cased byte. -/
def b32Char (c : Nat) : Option Nat :=
  if 65 ≤ c ∧ c ≤ 90 then some (c - 65)
  else if 50 ≤ c ∧ c ≤ 55 then some (c - 24)
  else none

def b32Vals : List Nat → Option (List Nat)
  | [] => some []
  | c :: cs =>
    match b32Char c, b32Vals cs with
    | some v, some vs => some (v :: vs)
    | _, _ => none

/-- Modelled from the spec: Base32Codec decode without padding: every
character must be in the alphabet, the input length must not leave a
remainder of 1, 3 or 6 characters (impossible lengths for RFC 4648 base32
without padding), and the first 5 * n / 8 bytes of the concatenated 5-bit
groups are the result. -/
def base32Decode (cs : List Nat) : Option (List Nat) :=
  match b32Vals cs with
  | none => none
  | some vs =>
    if cs.length % 8 = 1 ∨ cs.length % 8 = 3 ∨ cs.length % 8 = 6 then none
    else
      let nbits := 5 * vs.length
      let total := vs.foldl (fun a v => a * 32 + v) 0
      some ((List.range (nbits / 8)).map
        (fun i => total >>> (nbits - 8 * (i + 1)) &&& 0xff))

/-- Modelled from the spec: turbotunnel.ClientID is an 8-byte array. -/
def clientIDLen : Nat := 8

/-- The zero ClientID, the value of the var declaration in responseFor. -/
def zeroClientID : List Nat := List.replicate clientIDLen 0

/-- The result triple of responseFor: the response (nil for a non-query),
the ClientID (zero, or partially copied, where the code returns early) and
the decoded payload after the ClientID (empty models the Go nil slice). -/
structure RFResult where
  resp : Option Message
  clientID : List Nat
  payload : List Nat
deriving DecidableEq

/-- The OPT RR responseFor appends to its response when the query has one:
empty name, type OPT, class 4096 (the responder's UDP payload size), zero
TTL, no data. -/
def respOptRR : RR :=
  { RName := [], Typ := RRTypeOPT, Class := 4096, TTL := 0, Data := [] }

/-- The loop over query.Additional in responseFor: skip non-OPT RRs; on a
second OPT RR return FORMERR; append the response OPT RR; on a nonzero EDNS
version return BADVERS (the low nibble of the extended RCODE 16 into the
flags, its high bits into the OPT TTL); otherwise record the advertised
payload size and continue. -/
def scanOpt (resp : Message) (payloadSize : Nat) :
    List RR → Message ⊕ (Message × Nat)
  | [] => .inr (resp, payloadSize)
  | rr :: rest =>
    if rr.Typ ≠ RRTypeOPT then scanOpt resp payloadSize rest
    else if resp.Additional ≠ [] then
      .inl { resp with Flags := resp.Flags ||| RcodeFormatError }
    else if (rr.TTL >>> 16) &&& 0xff ≠ 0 then
      .inl { resp with
        Flags := resp.Flags ||| (ExtendedRcodeBadVers &&& 0xf),
        Additional := [{ respOptRR with
          TTL := (ExtendedRcodeBadVers >>> 4) <<< 24 }] }
    else scanOpt { resp with Additional := [respOptRR] } rr.Class rest

/-- responseFor from the server source: build the response skeleton (same
ID, flags QR=1 RCODE=0, echoed Question); drop non-queries; scan the
Additional section for OPT RRs; clamp the advertised payload size to at
least 512; require exactly one Question; strip the authoritative suffix
(NXDOMAIN without AA when it does not match, AA=1 when it does); require
OPCODE QUERY (NOTIMPL) and QTYPE TXT (NXDOMAIN); base32-decode the joined
upper-cased labels before the suffix (NXDOMAIN on error); require at least
a ClientID of payload (NXDOMAIN); require an advertised payload size of at
least maxUDPPayload (FORMERR); otherwise return the response, the ClientID
and the rest of the payload. -/
def responseFor (query : Message) (domain : Name) : RFResult :=
  let resp : Message :=
    { ID := query.ID, Flags := 0x8000, Question := query.Question }
  if query.Flags &&& 0x8000 ≠ 0 then
    { resp := none, clientID := zeroClientID, payload := [] }
  else
    match scanOpt resp 0 query.Additional with
    | .inl r => { resp := some r, clientID := zeroClientID, payload := [] }
    | .inr (r, ps0) =>
      let payloadSize := if ps0 < 512 then 512 else ps0
      match query.Question with
      | [question] =>
        match TrimSuffix question.QName domain with
        | none =>
          { resp := some { r with Flags := r.Flags ||| RcodeNameError },
            clientID := zeroClientID, payload := [] }
        | some labels =>
          let r2 := { r with Flags := r.Flags ||| 0x0400 }
          if query.Flags &&& 0x7800 ≠ 0 then
            { resp := some { r2 with
                Flags := r2.Flags ||| RcodeNotImplemented },
              clientID := zeroClientID, payload := [] }
          else if question.Typ ≠ RRTypeTXT then
            { resp := some { r2 with Flags := r2.Flags ||| RcodeNameError },
              clientID := zeroClientID, payload := [] }
          else
            match base32Decode (toUpperBytes labels.flatten) with
            | none =>
              { resp := some { r2 with
                  Flags := r2.Flags ||| RcodeNameError },
                clientID := zeroClientID, payload := [] }
            | some payload =>
              let cid := payload.take clientIDLen ++
                List.replicate (clientIDLen - payload.length) 0
              if payload.length < clientIDLen then
                { resp := some { r2 with
                    Flags := r2.Flags ||| RcodeNameError },
                  clientID := cid, payload := [] }
              else if payloadSize < maxUDPPayload then
                { resp := some { r2 with
                    Flags := r2.Flags ||| RcodeFormatError },
                  clientID := cid, payload := [] }
              else
                { resp := some r2, clientID := cid,
                  payload := payload.drop clientIDLen }
      | _ =>
        { resp := some { r with Flags := r.Flags ||| RcodeFormatError },
          clientID := zeroClientID, payload := [] }

/-- The RCODE of a message, the low four flag bits (Message.Rcode in the
dns package, modelled from the spec). -/
def rcode (m : Message) : Nat := m.Flags &&& 0xf

/-- The AA bit of a message's flags. -/
def aaBit (m : Message) : Nat := m.Flags &&& 0x400

/-- The RCODE of the response in a responseFor result, when there is one. -/
def respRcode (res : RFResult) : Option Nat := res.resp.map rcode

/-- The AA bit of the response in a responseFor result, when there is one. -/
def respAA (res : RFResult) : Option Nat := res.resp.map aaBit

/-- Whether a section contains an OPT RR. -/
def hasOPT (rrs : List RR) : Bool := rrs.any (fun rr => rr.Typ == RRTypeOPT)

/-- The number of OPT RRs in a section. -/
def countOPT (rrs : List RR) : Nat :=
  (rrs.filter (fun rr => rr.Typ == RRTypeOPT)).length

/-- The first OPT RR of a section, if any. -/
def firstOPT (rrs : List RR) : Option RR :=
  rrs.find? (fun rr => rr.Typ == RRTypeOPT)

/-- The EDNS version field of an OPT RR: bits 16..23 of its TTL. -/
def ednsVersion (rr : RR) : Nat := (rr.TTL >>> 16) &&& 0xff

/-- The requestor's advertised payload size as responseFor computes it: the
class of the first OPT RR, absent OPT RRs meaning 0, clamped to at least
512. -/
def advertisedPayloadSize (rrs : List RR) : Nat :=
  match firstOPT rrs with
  | some rr => if rr.Class < 512 then 512 else rr.Class
  | none => 512

/-- The message carried by either outcome of scanOpt: the early-return
response or the response passed on. -/
def outMsg : Message ⊕ (Message × Nat) → Message
  | .inl r => r
  | .inr (r, _) => r

theorem outMsg_inl (r : Message) : outMsg (.inl r) = r := rfl

theorem outMsg_inr (r : Message) (ps : Nat) : outMsg (.inr (r, ps)) = r := rfl

theorem scanOpt_outMsg (adds : List RR) : ∀ (resp : Message) (ps f : Nat),
    resp.Flags = f →
    (resp.Additional = [] ∨ hasOPT resp.Additional = true) →
    (outMsg (scanOpt resp ps adds)).ID = resp.ID ∧
    (outMsg (scanOpt resp ps adds)).Question = resp.Question ∧
    hasOPT (outMsg (scanOpt resp ps adds)).Additional =
      (hasOPT resp.Additional || hasOPT adds) ∧
    ((outMsg (scanOpt resp ps adds)).Flags = f ∨
      (outMsg (scanOpt resp ps adds)).Flags = f ||| RcodeFormatError) := by
  induction adds with
  | nil =>
    intro resp ps f hF _hpre
    simp [scanOpt, outMsg, hasOPT, hF]
  | cons rr rest ih =>
    intro resp ps f hF hpre
    by_cases hT : rr.Typ ≠ RRTypeOPT
    · have hskip : scanOpt resp ps (rr :: rest) = scanOpt resp ps rest := by
        simp [scanOpt, hT]
      have hopt : hasOPT (rr :: rest) = hasOPT rest := by
        simp only [hasOPT, List.any_cons]
        have : (rr.Typ == RRTypeOPT) = false := by
          simp [hT]
        simp [this]
      rw [hskip, hopt]
      exact ih resp ps f hF hpre
    · push_neg at hT
      by_cases hA : resp.Additional ≠ []
      · have hpre2 : hasOPT resp.Additional = true := by
          rcases hpre with h | h
          · exact absurd h hA
          · exact h
        have hstep : scanOpt resp ps (rr :: rest) =
            .inl { resp with Flags := resp.Flags ||| RcodeFormatError } := by
          simp [scanOpt, hT, hA]
        rw [hstep, outMsg_inl]
        refine ⟨rfl, rfl, ?_, Or.inr ?_⟩
        · simp [hpre2]
        · show resp.Flags ||| RcodeFormatError = f ||| RcodeFormatError
          rw [hF]
      · push_neg at hA
        by_cases hV : (rr.TTL >>> 16) &&& 0xff ≠ 0
        · have hstep : scanOpt resp ps (rr :: rest) =
              .inl { resp with
                Flags := resp.Flags ||| (ExtendedRcodeBadVers &&& 0xf),
                Additional := [{ respOptRR with
                  TTL := (ExtendedRcodeBadVers >>> 4) <<< 24 }] } := by
            simp only [scanOpt, hT]
            simp [hA, hV]
          rw [hstep, outMsg_inl]
          have h16 : (ExtendedRcodeBadVers &&& 0xf : Nat) = 0 := by decide
          refine ⟨rfl, rfl, ?_, Or.inl ?_⟩
          · simp [hasOPT, hA, hT, respOptRR, RRTypeOPT]
          · show resp.Flags ||| (ExtendedRcodeBadVers &&& 0xf) = f
            rw [h16, Nat.or_zero, hF]
        · push_neg at hV
          have hstep : scanOpt resp ps (rr :: rest) =
              scanOpt { resp with Additional := [respOptRR] } rr.Class rest := by
            simp only [scanOpt, hT]
            simp [hA, hV]
          have hpre2 : ({ resp with
              Additional := [respOptRR] } : Message).Additional = [] ∨
              hasOPT ({ resp with
                Additional := [respOptRR] } : Message).Additional = true := by
            right
            simp [hasOPT, respOptRR, RRTypeOPT]
          have hF2 : ({ resp with
              Additional := [respOptRR] } : Message).Flags = f := hF
          have := ih { resp with Additional := [respOptRR] } rr.Class f hF2 hpre2
          rw [hstep]
          obtain ⟨h1, h2, h3, h4⟩ := this
          refine ⟨h1, h2, ?_, h4⟩
          rw [h3]
          simp [hasOPT, hA, hT, respOptRR, RRTypeOPT]

theorem responseFor_resp_meta (q : Message) (d : Name) (r : Message)
    (cid pl : List Nat) (h : responseFor q d = ⟨some r, cid, pl⟩) :
    r.ID = q.ID ∧ r.Question = q.Question ∧
    hasOPT r.Additional = hasOPT q.Additional ∧
    (r.Flags / 256 % 256 = 0x80 ∨ r.Flags / 256 % 256 = 0x84) := by
  simp only [responseFor] at h
  split at h
  · simp at h
  · rename_i hq
    have hmeta := scanOpt_outMsg q.Additional
      { ID := q.ID, Flags := 0x8000, Question := q.Question } 0 0x8000 rfl
      (Or.inl rfl)
    split at h
    · rename_i r1 heq
      rw [heq, outMsg_inl] at hmeta
      obtain ⟨h1, h2, h3, h4⟩ := hmeta
      have hadd : hasOPT r1.Additional = hasOPT q.Additional := by
        simpa [hasOPT] using h3
      simp only [RFResult.mk.injEq, Option.some.injEq] at h
      obtain ⟨hr, -, -⟩ := h
      have eID : r.ID = r1.ID := by subst hr; rfl
      have eQ : r.Question = r1.Question := by subst hr; rfl
      have eA : r.Additional = r1.Additional := by subst hr; rfl
      have eF : r.Flags = r1.Flags := by subst hr; rfl
      refine ⟨eID.trans h1, eQ.trans h2, ?_, ?_⟩
      · rw [eA]
        exact hadd
      · rw [eF]
        rcases h4 with h4 | h4 <;> rw [h4] <;> decide
    · rename_i r1 ps0 heq
      rw [heq, outMsg_inr] at hmeta
      obtain ⟨h1, h2, h3, h4⟩ := hmeta
      have hadd : hasOPT r1.Additional = hasOPT q.Additional := by
        simpa [hasOPT] using h3
      split at h
      · rename_i question hqq
        split at h
        · simp only [RFResult.mk.injEq, Option.some.injEq] at h
          obtain ⟨hr, -, -⟩ := h
          have eID : r.ID = r1.ID := by subst hr; rfl
          have eQ : r.Question = r1.Question := by subst hr; rfl
          have eA : r.Additional = r1.Additional := by subst hr; rfl
          have eF : r.Flags = r1.Flags ||| RcodeNameError := by subst hr; rfl
          refine ⟨eID.trans h1, eQ.trans h2, ?_, ?_⟩
          · rw [eA]
            exact hadd
          · rw [eF]
            rcases h4 with h4 | h4 <;> rw [h4] <;> decide
        · rename_i labels hts
          split at h
          · simp only [RFResult.mk.injEq, Option.some.injEq] at h
            obtain ⟨hr, -, -⟩ := h
            have eID : r.ID = r1.ID := by subst hr; rfl
            have eQ : r.Question = r1.Question := by subst hr; rfl
            have eA : r.Additional = r1.Additional := by subst hr; rfl
            have eF : r.Flags = r1.Flags ||| 0x400 ||| RcodeNotImplemented := by
              subst hr; rfl
            refine ⟨eID.trans h1, eQ.trans h2, ?_, ?_⟩
            · rw [eA]
              exact hadd
            · rw [eF]
              rcases h4 with h4 | h4 <;> rw [h4] <;> decide
          · split at h
            · simp only [RFResult.mk.injEq, Option.some.injEq] at h
              obtain ⟨hr, -, -⟩ := h
              have eID : r.ID = r1.ID := by subst hr; rfl
              have eQ : r.Question = r1.Question := by subst hr; rfl
              have eA : r.Additional = r1.Additional := by subst hr; rfl
              have eF : r.Flags = r1.Flags ||| 0x400 ||| RcodeNameError := by
                subst hr; rfl
              refine ⟨eID.trans h1, eQ.trans h2, ?_, ?_⟩
              · rw [eA]
                exact hadd
              · rw [eF]
                rcases h4 with h4 | h4 <;> rw [h4] <;> decide
            · split at h
              · simp only [RFResult.mk.injEq, Option.some.injEq] at h
                obtain ⟨hr, -, -⟩ := h
                have eID : r.ID = r1.ID := by subst hr; rfl
                have eQ : r.Question = r1.Question := by subst hr; rfl
                have eA : r.Additional = r1.Additional := by subst hr; rfl
                have eF : r.Flags = r1.Flags ||| 0x400 ||| RcodeNameError := by
                  subst hr; rfl
                refine ⟨eID.trans h1, eQ.trans h2, ?_, ?_⟩
                · rw [eA]
                  exact hadd
                · rw [eF]
                  rcases h4 with h4 | h4 <;> rw [h4] <;> decide
              · rename_i payload hb32
                split at h
                · simp only [RFResult.mk.injEq, Option.some.injEq] at h
                  obtain ⟨hr, -, -⟩ := h
                  have eID : r.ID = r1.ID := by subst hr; rfl
                  have eQ : r.Question = r1.Question := by subst hr; rfl
                  have eA : r.Additional = r1.Additional := by subst hr; rfl
                  have eF : r.Flags = r1.Flags ||| 0x400 ||| RcodeNameError := by
                    subst hr; rfl
                  refine ⟨eID.trans h1, eQ.trans h2, ?_, ?_⟩
                  · rw [eA]
                    exact hadd
                  · rw [eF]
                    rcases h4 with h4 | h4 <;> rw [h4] <;> decide
                · split at h <;> split at h
                  · simp only [RFResult.mk.injEq, Option.some.injEq] at h
                    obtain ⟨hr, -, -⟩ := h
                    have eID : r.ID = r1.ID := by subst hr; rfl
                    have eQ : r.Question = r1.Question := by subst hr; rfl
                    have eA : r.Additional = r1.Additional := by subst hr; rfl
                    have eF : r.Flags = r1.Flags ||| 0x400 ||| RcodeFormatError := by
                      subst hr; rfl
                    refine ⟨eID.trans h1, eQ.trans h2, ?_, ?_⟩
                    · rw [eA]
                      exact hadd
                    · rw [eF]
                      rcases h4 with h4 | h4 <;> rw [h4] <;> decide
                  · simp only [RFResult.mk.injEq, Option.some.injEq] at h
                    obtain ⟨hr, -, -⟩ := h
                    have eID : r.ID = r1.ID := by subst hr; rfl
                    have eQ : r.Question = r1.Question := by subst hr; rfl
                    have eA : r.Additional = r1.Additional := by subst hr; rfl
                    have eF : r.Flags = r1.Flags ||| 0x400 := by subst hr; rfl
                    refine ⟨eID.trans h1, eQ.trans h2, ?_, ?_⟩
                    · rw [eA]
                      exact hadd
                    · rw [eF]
                      rcases h4 with h4 | h4 <;> rw [h4] <;> decide
                  · simp only [RFResult.mk.injEq, Option.some.injEq] at h
                    obtain ⟨hr, -, -⟩ := h
                    have eID : r.ID = r1.ID := by subst hr; rfl
                    have eQ : r.Question = r1.Question := by subst hr; rfl
                    have eA : r.Additional = r1.Additional := by subst hr; rfl
                    have eF : r.Flags = r1.Flags ||| 0x400 ||| RcodeFormatError := by
                      subst hr; rfl
                    refine ⟨eID.trans h1, eQ.trans h2, ?_, ?_⟩
                    · rw [eA]
                      exact hadd
                    · rw [eF]
                      rcases h4 with h4 | h4 <;> rw [h4] <;> decide
                  · simp only [RFResult.mk.injEq, Option.some.injEq] at h
                    obtain ⟨hr, -, -⟩ := h
                    have eID : r.ID = r1.ID := by subst hr; rfl
                    have eQ : r.Question = r1.Question := by subst hr; rfl
                    have eA : r.Additional = r1.Additional := by subst hr; rfl
                    have eF : r.Flags = r1.Flags ||| 0x400 := by subst hr; rfl
                    refine ⟨eID.trans h1, eQ.trans h2, ?_, ?_⟩
                    · rw [eA]
                      exact hadd
                    · rw [eF]
                      rcases h4 with h4 | h4 <;> rw [h4] <;> decide
      · simp only [RFResult.mk.injEq, Option.some.injEq] at h
        obtain ⟨hr, -, -⟩ := h
        have eID : r.ID = r1.ID := by subst hr; rfl
        have eQ : r.Question = r1.Question := by subst hr; rfl
        have eA : r.Additional = r1.Additional := by subst hr; rfl
        have eF : r.Flags = r1.Flags ||| RcodeFormatError := by subst hr; rfl
        refine ⟨eID.trans h1, eQ.trans h2, ?_, ?_⟩
        · rw [eA]
          exact hadd
        · rw [eF]
          rcases h4 with h4 | h4 <;> rw [h4] <;> decide

/-- C2: every non-nil response from responseFor carries the query's ID,
echoes its Question section unchanged, and contains an OPT RR in its
Additional section exactly when the query contained at least one. -/
theorem responseFor_echo (query : Message) (domain : Name) (r : Message)
    (cid pl : List Nat)
    (h : responseFor query domain = ⟨some r, cid, pl⟩) :
    r.ID = query.ID ∧ r.Question = query.Question ∧
    hasOPT r.Additional = hasOPT query.Additional := by
  obtain ⟨h1, h2, h3, -⟩ := responseFor_resp_meta query domain r cid pl h
  exact ⟨h1, h2, h3⟩

/-- The example query of the C2 witness: one OPT RR (class 4096, version
0), no Question. -/
def echoQueryEx : Message :=
  { ID := 7, Flags := 0, Question := [], Additional := [respOptRR] }

/-- The response responseFor returns for echoQueryEx: FORMERR for the
missing Question, with the OPT RR echoed. -/
def echoRespEx : Message :=
  { ID := 7, Flags := 0x8001, Question := [], Additional := [respOptRR] }

/-- Witness for responseFor_echo: a query with one OPT RR and no Question
draws a FORMERR response that echoes ID, Question and the OPT presence. -/
theorem responseFor_echo_witness :
    echoRespEx.ID = echoQueryEx.ID ∧
    echoRespEx.Question = echoQueryEx.Question ∧
    hasOPT echoRespEx.Additional = hasOPT echoQueryEx.Additional :=
  responseFor_echo echoQueryEx [] echoRespEx zeroClientID [] (by decide)

/-- Modelled from the spec: the first two 16-bit words of the standard DNS
wire format, big-endian: the message ID then the flags word. -/
def putU16 (v : Nat) : List Nat := [v / 256 % 256, v % 256]

/-- Modelled from the spec: DNSCodec serialization of a message: ID at byte
offsets 0..1, flags at byte offsets 2..3, then the rest of the message
(section counts and the four sections), abstracted as body. -/
def wireFormat (m : Message) (body : List Nat) : List Nat :=
  putU16 m.ID ++ putU16 m.Flags ++ body

/-- The truncation step of sendLoop: if the serialized response exceeds
maxUDPPayload bytes, keep the first maxUDPPayload bytes and set bit 0x02 of
byte offset 2 (the TC bit). -/
def truncateDatagram (buf : List Nat) : List Nat :=
  if maxUDPPayload < buf.length then
    (buf.take maxUDPPayload).set 2 ((buf.take maxUDPPayload).getD 2 0 ||| 0x02)
  else buf

/-- Whether the TC bit (bit 0x02 of byte offset 2) is set in a datagram. -/
def tcFlagSet (buf : List Nat) : Bool := buf.getD 2 0 &&& 0x02 != 0

theorem or_two_and_two (x : Nat) : (x ||| 2) &&& 2 = 2 := by
  have h1 : (x ||| 2).testBit 1 = true := by
    simp only [Nat.testBit_or, Bool.or_eq_true]
    exact Or.inr (by decide)
  have h2 := Nat.and_two_pow (x ||| 2) 1
  rw [h1] at h2
  simpa using h2

/-- C1: every datagram sendLoop emits for a responseFor response is at most
maxUDPPayload = 1232 bytes; when the serialized response is longer, the
emitted datagram is exactly 1232 bytes with the TC bit set, and the TC bit
is set only in that case (responseFor never sets TC itself, so the
serialized flags byte has it clear). -/
theorem sendLoop_datagram_size_tc (query : Message) (domain : Name)
    (r : Message) (cid pl body : List Nat)
    (h : responseFor query domain = ⟨some r, cid, pl⟩) :
    (truncateDatagram (wireFormat r body)).length ≤ maxUDPPayload ∧
    (maxUDPPayload < (wireFormat r body).length →
      (truncateDatagram (wireFormat r body)).length = maxUDPPayload) ∧
    (tcFlagSet (truncateDatagram (wireFormat r body)) = true ↔
      maxUDPPayload < (wireFormat r body).length) := by
  obtain ⟨-, -, -, hbyte⟩ := responseFor_resp_meta query domain r cid pl h
  have hwf : wireFormat r body =
      r.ID / 256 % 256 :: r.ID % 256 ::
        r.Flags / 256 % 256 :: r.Flags % 256 :: body := by
    simp [wireFormat, putU16]
  by_cases htr : maxUDPPayload < (wireFormat r body).length
  · have htd : truncateDatagram (wireFormat r body) =
        ((wireFormat r body).take maxUDPPayload).set 2
          (((wireFormat r body).take maxUDPPayload).getD 2 0 ||| 0x02) := by
      rw [truncateDatagram, if_pos htr]
    have hlen2 : 2 < ((wireFormat r body).take maxUDPPayload).length := by
      rw [List.length_take]
      have : (2 : Nat) < maxUDPPayload := by decide
      omega
    have hlen : (truncateDatagram (wireFormat r body)).length =
        maxUDPPayload := by
      rw [htd, List.length_set, List.length_take]
      omega
    refine ⟨le_of_eq hlen, fun _ => hlen, ?_⟩
    have htc : tcFlagSet (truncateDatagram (wireFormat r body)) = true := by
      rw [htd]
      unfold tcFlagSet
      rw [List.getD_eq_getElem?_getD, List.getElem?_set_self hlen2]
      simp only [Option.getD_some]
      rw [or_two_and_two]
      decide
    simp [htc, htr]
  · have htd : truncateDatagram (wireFormat r body) = wireFormat r body := by
      rw [truncateDatagram, if_neg htr]
    have htc : tcFlagSet (truncateDatagram (wireFormat r body)) = false := by
      rw [htd, hwf]
      unfold tcFlagSet
      simp only [List.getD_cons_succ, List.getD_cons_zero]
      rcases hbyte with hb | hb <;> rw [hb] <;> decide
    constructor
    · rw [htd]
      omega
    constructor
    · intro hcon
      exact absurd hcon htr
    · rw [htc]
      simp only [Bool.false_eq_true, false_iff]
      exact htr

/-- Witness for sendLoop_datagram_size_tc: a FORMERR response with a
1300-byte body is truncated to exactly 1232 bytes with TC set. -/
theorem sendLoop_datagram_size_tc_witness :
    (truncateDatagram (wireFormat { ID := 7, Flags := 0x8001, Question := [] }
      (List.replicate 1300 0))).length ≤ maxUDPPayload ∧
    (truncateDatagram (wireFormat { ID := 7, Flags := 0x8001, Question := [] }
      (List.replicate 1300 0))).length = maxUDPPayload ∧
    tcFlagSet (truncateDatagram (wireFormat
      { ID := 7, Flags := 0x8001, Question := [] }
      (List.replicate 1300 0))) = true := by
  have h := sendLoop_datagram_size_tc { ID := 7, Flags := 0, Question := [] }
    [] { ID := 7, Flags := 0x8001, Question := [] } zeroClientID []
    (List.replicate 1300 0) (by decide)
  have hlen : maxUDPPayload <
      (wireFormat { ID := 7, Flags := 0x8001, Question := [] }
        (List.replicate 1300 0)).length := by
    rw [wireFormat]
    simp only [putU16, List.length_append, List.length_replicate,
      List.length_cons, List.length_nil]
    decide
  exact ⟨h.1, h.2.1 hlen, h.2.2.mpr hlen⟩

theorem countOPT_cons (rr : RR) (rest : List RR) :
    countOPT (rr :: rest) =
      (if rr.Typ = RRTypeOPT then 1 else 0) + countOPT rest := by
  by_cases h : rr.Typ = RRTypeOPT <;>
    simp [countOPT, List.filter_cons, h] <;> omega

theorem firstOPT_cons_opt (rr : RR) (rest : List RR)
    (h : rr.Typ = RRTypeOPT) : firstOPT (rr :: rest) = some rr := by
  simp [firstOPT, List.find?_cons_of_pos, h]

theorem firstOPT_cons_skip (rr : RR) (rest : List RR)
    (h : rr.Typ ≠ RRTypeOPT) : firstOPT (rr :: rest) = firstOPT rest := by
  unfold firstOPT
  rw [List.find?_cons_of_neg]
  simp [h]

theorem scanOpt_no_opt (adds : List RR) : ∀ (resp : Message) (ps : Nat),
    countOPT adds = 0 → scanOpt resp ps adds = .inr (resp, ps) := by
  induction adds with
  | nil => intro resp ps _; rfl
  | cons rr rest ih =>
    intro resp ps hc
    rw [countOPT_cons] at hc
    have hT : rr.Typ ≠ RRTypeOPT := by
      intro he
      rw [if_pos he] at hc
      omega
    have hc2 : countOPT rest = 0 := by
      rw [if_neg hT] at hc
      omega
    simp [scanOpt, hT, ih resp ps hc2]

theorem scanOpt_formerr_nonempty (adds : List RR) :
    ∀ (resp : Message) (ps : Nat),
    resp.Additional ≠ [] → 1 ≤ countOPT adds →
    scanOpt resp ps adds =
      .inl { resp with Flags := resp.Flags ||| RcodeFormatError } := by
  induction adds with
  | nil => intro resp ps _ hc; simp [countOPT] at hc
  | cons rr rest ih =>
    intro resp ps hA hc
    by_cases hT : rr.Typ = RRTypeOPT
    · simp [scanOpt, hT, hA]
    · have hc2 : 1 ≤ countOPT rest := by
        rw [countOPT_cons, if_neg hT] at hc
        omega
      simp [scanOpt, hT, ih resp ps hA hc2]

theorem scanOpt_two (adds : List RR) : ∀ (resp : Message) (ps f : Nat),
    resp.Flags = f → resp.Additional = [] → 2 ≤ countOPT adds →
    (∀ rr, firstOPT adds = some rr → ednsVersion rr = 0) →
    ∃ r, scanOpt resp ps adds = .inl r ∧
      r.Flags = f ||| RcodeFormatError ∧ r.ID = resp.ID ∧
      r.Question = resp.Question := by
  induction adds with
  | nil => intro resp ps f _ _ hc _; simp [countOPT] at hc
  | cons rr rest ih =>
    intro resp ps f hF hA hc hv
    by_cases hT : rr.Typ = RRTypeOPT
    · have hver : ednsVersion rr = 0 := hv rr (firstOPT_cons_opt rr rest hT)
      have hc2 : 1 ≤ countOPT rest := by
        rw [countOPT_cons, if_pos hT] at hc
        omega
      have hstep : scanOpt resp ps (rr :: rest) =
          scanOpt { resp with Additional := [respOptRR] } rr.Class rest := by
        have hver2 : (rr.TTL >>> 16) &&& 0xff = 0 := hver
        simp [scanOpt, hT, hA, hver2]
      have hend := scanOpt_formerr_nonempty rest
        { resp with Additional := [respOptRR] } rr.Class (by simp) hc2
      refine ⟨_, hstep.trans hend, ?_, rfl, rfl⟩
      show resp.Flags ||| RcodeFormatError = f ||| RcodeFormatError
      rw [hF]
    · have hc2 : 2 ≤ countOPT rest := by
        rw [countOPT_cons, if_neg hT] at hc
        omega
      have hv2 : ∀ x, firstOPT rest = some x → ednsVersion x = 0 := by
        intro x hx
        exact hv x (by rw [firstOPT_cons_skip rr rest hT]; exact hx)
      obtain ⟨r, hr, hrf, hid, hqq⟩ := ih resp ps f hF hA hc2 hv2
      exact ⟨r, by simp [scanOpt, hT, hr], hrf, hid, hqq⟩

theorem scanOpt_success (adds : List RR) : ∀ (resp : Message) (ps f : Nat),
    resp.Flags = f → resp.Additional = [] → countOPT adds ≤ 1 →
    (∀ rr, firstOPT adds = some rr → ednsVersion rr = 0) →
    ∃ r, scanOpt resp ps adds =
        .inr (r, match firstOPT adds with
          | some rr => rr.Class
          | none => ps) ∧
      r.Flags = f ∧ r.ID = resp.ID ∧ r.Question = resp.Question := by
  induction adds with
  | nil =>
    intro resp ps f hF _ _ _
    exact ⟨resp, by simp [scanOpt, firstOPT], hF, rfl, rfl⟩
  | cons rr rest ih =>
    intro resp ps f hF hA hc hv
    by_cases hT : rr.Typ = RRTypeOPT
    · have hver : ednsVersion rr = 0 := hv rr (firstOPT_cons_opt rr rest hT)
      have hc0 : countOPT rest = 0 := by
        rw [countOPT_cons, if_pos hT] at hc
        omega
      have hstep : scanOpt resp ps (rr :: rest) =
          scanOpt { resp with Additional := [respOptRR] } rr.Class rest := by
        have hver2 : (rr.TTL >>> 16) &&& 0xff = 0 := hver
        simp [scanOpt, hT, hA, hver2]
      have hend := scanOpt_no_opt rest
        { resp with Additional := [respOptRR] } rr.Class hc0
      refine ⟨{ resp with Additional := [respOptRR] }, ?_, hF, rfl, rfl⟩
      rw [hstep, hend, firstOPT_cons_opt rr rest hT]
    · have hc2 : countOPT rest ≤ 1 := by
        rw [countOPT_cons, if_neg hT] at hc
        omega
      have hv2 : ∀ x, firstOPT rest = some x → ednsVersion x = 0 := by
        intro x hx
        exact hv x (by rw [firstOPT_cons_skip rr rest hT]; exact hx)
      obtain ⟨r, hr, hrf, hid, hqq⟩ := ih resp ps f hF hA hc2 hv2
      refine ⟨r, ?_, hrf, hid, hqq⟩
      rw [firstOPT_cons_skip rr rest hT]
      simp [scanOpt, hT, hr]

theorem edns_hv_of_eq (rrs : List RR) (a : RR) (h : firstOPT rrs = some a)
    (ha : ednsVersion a = 0) :
    ∀ rr, firstOPT rrs = some rr → ednsVersion rr = 0 := by
  intro rr hrr
  rw [h] at hrr
  cases hrr
  exact ha

/-- An OPT RR advertising version 1 (TTL = 0x10000). -/
def badversOptRR : RR :=
  { RName := [], Typ := 41, Class := 4096, TTL := 65536, Data := [] }

/-- A query (QR = 0) whose Additional section holds two OPT RRs, the first
of EDNS version 1. -/
def twoOptBadversQuery : Message :=
  { ID := 0, Flags := 0, Question := [],
    Additional := [badversOptRR, respOptRR] }

/-- C3 counterexample: a query with two OPT RRs whose first OPT RR has a
nonzero EDNS version is answered BADVERS (flags RCODE nibble 0), not
FORMERR: the version check on the first OPT RR runs before the second OPT
RR is ever seen. -/
theorem responseFor_two_opt_badvers_cex :
    countOPT twoOptBadversQuery.Additional = 2 ∧
    twoOptBadversQuery.Flags &&& 0x8000 = 0 ∧
    respRcode (responseFor twoOptBadversQuery []) = some 0 ∧
    respRcode (responseFor twoOptBadversQuery []) ≠ some RcodeFormatError := by
  refine ⟨by decide, by decide, by decide, by decide⟩

/-- C3 as amended: for every query (QR clear) whose Additional section
contains two or more OPT RRs and whose first OPT RR has EDNS version 0,
responseFor returns a FORMERR response with an empty payload, so recvLoop
extracts no packet and enqueues nothing for that query. -/
theorem responseFor_two_opt_formerr (query : Message) (domain : Name)
    (hq : query.Flags &&& 0x8000 = 0)
    (h2 : 2 ≤ countOPT query.Additional)
    (hv : ∀ rr, firstOPT query.Additional = some rr → ednsVersion rr = 0) :
    respRcode (responseFor query domain) = some RcodeFormatError ∧
    (responseFor query domain).payload = [] ∧
    extractPackets (responseFor query domain).payload = [] := by
  obtain ⟨r, hscan, hf, -, -⟩ := scanOpt_two query.Additional
    { ID := query.ID, Flags := 0x8000, Question := query.Question } 0 0x8000
    rfl rfl h2 hv
  have hqc : ¬(query.Flags &&& 0x8000 ≠ 0) := by simp [hq]
  have hres : responseFor query domain = ⟨some r, zeroClientID, []⟩ := by
    simp only [responseFor, if_neg hqc, hscan]
  rw [hres]
  refine ⟨?_, rfl, extractPackets_nil⟩
  simp only [respRcode, rcode, Option.map_some', Option.some.injEq]
  rw [hf]
  decide

/-- Witness for responseFor_two_opt_formerr: two version-0 OPT RRs. -/
theorem responseFor_two_opt_formerr_witness :
    respRcode (responseFor
      { ID := 7, Flags := 0, Question := [],
        Additional := [respOptRR, respOptRR] } []) =
      some RcodeFormatError ∧
    (responseFor
      { ID := 7, Flags := 0, Question := [],
        Additional := [respOptRR, respOptRR] } []).payload = [] := by
  have h := responseFor_two_opt_formerr
    { ID := 7, Flags := 0, Question := [],
      Additional := [respOptRR, respOptRR] } [] (by decide) (by decide)
    (edns_hv_of_eq _ respOptRR (by decide) (by decide))
  exact ⟨h.1, h.2.1⟩

/-- The query of the C7 counterexample: one Question for a foreign name,
but two OPT RRs in Additional. -/
def foreignTwoOptQuery : Message :=
  { ID := 1, Flags := 0,
    Question := [{ QName := [[97]], Typ := 16, Class := 1 }],
    Additional := [respOptRR, respOptRR] }

/-- C7 counterexample: a query with exactly one Question whose name does
not end in the suffix, but carrying two OPT RRs, is answered FORMERR (the
Additional-section walk precedes the name check), not NXDOMAIN. -/
theorem responseFor_foreign_name_cex :
    foreignTwoOptQuery.Question.length = 1 ∧
    TrimSuffix [[97]] [[98]] = none ∧
    respRcode (responseFor foreignTwoOptQuery [[98]]) =
      some RcodeFormatError ∧
    respRcode (responseFor foreignTwoOptQuery [[98]]) ≠
      some RcodeNameError := by
  refine ⟨by decide, by decide, by decide, by decide⟩

/-- C7 as amended: for every query (QR clear) with exactly one Question
whose name does not end in the configured suffix, and whose Additional
section passes the EDNS scan (at most one OPT RR, of version 0), the
response has RCODE = NXDOMAIN and AA = 0, the payload is empty, and no
packet is extracted for enqueueing to the VirtualPacketConn. -/
theorem responseFor_foreign_name (query : Message) (domain : Name)
    (question : Question)
    (hq : query.Flags &&& 0x8000 = 0)
    (h1 : query.Question = [question])
    (hopt : countOPT query.Additional ≤ 1)
    (hv : ∀ rr, firstOPT query.Additional = some rr → ednsVersion rr = 0)
    (hname : TrimSuffix question.QName domain = none) :
    respRcode (responseFor query domain) = some RcodeNameError ∧
    respAA (responseFor query domain) = some 0 ∧
    (responseFor query domain).payload = [] ∧
    extractPackets (responseFor query domain).payload = [] := by
  obtain ⟨r, hscan, hf, -, -⟩ := scanOpt_success query.Additional
    { ID := query.ID, Flags := 0x8000, Question := query.Question } 0 0x8000
    rfl rfl hopt hv
  have hqc : ¬(query.Flags &&& 0x8000 ≠ 0) := by simp [hq]
  rw [h1] at hscan
  have hres : responseFor query domain =
      ⟨some { r with Flags := r.Flags ||| RcodeNameError },
        zeroClientID, []⟩ := by
    simp only [responseFor, if_neg hqc, h1, hname, hscan]
  rw [hres]
  have hXF : ({ r with Flags := r.Flags ||| RcodeNameError } : Message).Flags
      = r.Flags ||| RcodeNameError := rfl
  refine ⟨?_, ?_, rfl, extractPackets_nil⟩
  · simp only [respRcode, rcode, Option.map_some', Option.some.injEq, hXF]
    rw [hf]
    decide
  · simp only [respAA, aaBit, Option.map_some', Option.some.injEq, hXF]
    rw [hf]
    decide

/-- Witness for responseFor_foreign_name: a TXT query for a.b against the
suffix b2 (label 98 is not label 97's suffix), no OPT RR. -/
theorem responseFor_foreign_name_witness :
    respRcode (responseFor
      { ID := 1, Flags := 0,
        Question := [{ QName := [[97]], Typ := 16, Class := 1 }] } [[98]]) =
      some RcodeNameError ∧
    respAA (responseFor
      { ID := 1, Flags := 0,
        Question := [{ QName := [[97]], Typ := 16, Class := 1 }] } [[98]]) =
      some 0 ∧
    (responseFor
      { ID := 1, Flags := 0,
        Question := [{ QName := [[97]], Typ := 16, Class := 1 }] }
      [[98]]).payload = [] := by
  have h := responseFor_foreign_name
    { ID := 1, Flags := 0,
      Question := [{ QName := [[97]], Typ := 16, Class := 1 }] } [[98]]
    { QName := [[97]], Typ := 16, Class := 1 }
    (by decide) (by decide) (by decide)
    (by intro rr hrr; simp [firstOPT, List.find?] at hrr)
    (by decide)
  exact ⟨h.1, h.2.1, h.2.2.1⟩

theorem clampPayloadSize_eq (rrs : List RR) :
    (if (match firstOPT rrs with | some rr => rr.Class | none => 0) < 512
      then 512
      else (match firstOPT rrs with | some rr => rr.Class | none => 0)) =
    advertisedPayloadSize rrs := by
  unfold advertisedPayloadSize
  cases firstOPT rrs <;> simp

/-- C8: every query that passes all the earlier validation steps of
responseFor (it is a query, OPCODE QUERY, its EDNS scan finds at most one
OPT RR of version 0, it has exactly one TXT Question whose name ends in the
authoritative suffix and whose leading labels decode as base32 to at least
a ClientID of payload) but whose advertised EDNS payload size, clamped to a
minimum of 512 with absence meaning 512, is below maxUDPPayload = 1232, is
answered FORMERR with AA = 1 and an empty payload: the buffer-size check
runs after every name-based check. -/
theorem responseFor_small_buffer (query : Message) (domain : Name)
    (question : Question) (labels : Name) (payload : List Nat)
    (hq : query.Flags &&& 0x8000 = 0)
    (hopc : query.Flags &&& 0x7800 = 0)
    (h1 : query.Question = [question])
    (hopt : countOPT query.Additional ≤ 1)
    (hv : ∀ rr, firstOPT query.Additional = some rr → ednsVersion rr = 0)
    (hname : TrimSuffix question.QName domain = some labels)
    (htype : question.Typ = RRTypeTXT)
    (hb32 : base32Decode (toUpperBytes labels.flatten) = some payload)
    (hlen : clientIDLen ≤ payload.length)
    (hsize : advertisedPayloadSize query.Additional < maxUDPPayload) :
    respRcode (responseFor query domain) = some RcodeFormatError ∧
    respAA (responseFor query domain) = some 0x400 ∧
    (responseFor query domain).payload = [] := by
  obtain ⟨r, hscan, hf, -, -⟩ := scanOpt_success query.Additional
    { ID := query.ID, Flags := 0x8000, Question := query.Question } 0 0x8000
    rfl rfl hopt hv
  have hqc : ¬(query.Flags &&& 0x8000 ≠ 0) := by simp [hq]
  have hopc2 : ¬(query.Flags &&& 0x7800 ≠ 0) := by simp [hopc]
  have htype2 : ¬(question.Typ ≠ RRTypeTXT) := by simp [htype]
  have hlen2 : ¬(payload.length < clientIDLen) := Nat.not_lt.mpr hlen
  rw [h1] at hscan
  have hsize2 : (if (match firstOPT query.Additional with
        | some rr => rr.Class | none => 0) < 512 then 512
      else (match firstOPT query.Additional with
        | some rr => rr.Class | none => 0)) < maxUDPPayload := by
    rw [clampPayloadSize_eq]
    exact hsize
  have hres : responseFor query domain =
      ⟨some { r with Flags := r.Flags ||| 0x400 ||| RcodeFormatError },
        payload.take clientIDLen ++
          List.replicate (clientIDLen - payload.length) 0, []⟩ := by
    simp only [responseFor, if_neg hqc, h1, hname, hscan, if_neg hopc2,
      if_neg htype2, hb32, if_neg hlen2, if_pos hsize2]
  rw [hres]
  have hXF : ({ r with
      Flags := r.Flags ||| 0x400 ||| RcodeFormatError } : Message).Flags =
      r.Flags ||| 0x400 ||| RcodeFormatError := rfl
  refine ⟨?_, ?_, rfl⟩
  · simp only [respRcode, rcode, Option.map_some', Option.some.injEq, hXF]
    rw [hf]
    decide
  · simp only [respAA, aaBit, Option.map_some', Option.some.injEq, hXF]
    rw [hf]
    decide

/-- An OPT RR advertising only 512 bytes of UDP payload. -/
def opt512RR : RR :=
  { RName := [], Typ := 41, Class := 512, TTL := 0, Data := [] }

/-- The Question of the C8 witness: a TXT query whose first label is 13
times the byte A (base32 of an all-zero 8-byte ClientID) under the suffix
label d. -/
def smallBufferQuestion : Question :=
  { QName := [List.replicate 13 65, [100]], Typ := 16, Class := 1 }

/-- The query of the C8 witness: the Question above with an OPT RR
advertising only 512 bytes. -/
def smallBufferQuery : Message :=
  { ID := 1, Flags := 0, Question := [smallBufferQuestion],
    Additional := [opt512RR] }

/-- Witness for responseFor_small_buffer: the 512-byte advertiser gets
FORMERR with AA set and no payload. -/
theorem responseFor_small_buffer_witness :
    respRcode (responseFor smallBufferQuery [[100]]) =
      some RcodeFormatError ∧
    respAA (responseFor smallBufferQuery [[100]]) = some 0x400 ∧
    (responseFor smallBufferQuery [[100]]).payload = [] := by
  have h := responseFor_small_buffer smallBufferQuery [[100]]
    smallBufferQuestion
    [List.replicate 13 65] (List.replicate 8 0)
    (by decide) (by decide) (by decide) (by decide)
    (edns_hv_of_eq _ opt512RR (by decide) (by decide))
    (by decide) (by decide) (by decide) (by decide) (by decide)
  exact h

/-- The cost one packet adds to a bundle: its 2-byte length tag plus its
bytes, the amount sendLoop subtracts from the remaining limit. -/
def packetCost (p : List Nat) : Int := 2 + (p.length : Int)

/-- The total cost of a list of bundled packets. -/
def costSum (ps : List (List Nat)) : Int := (ps.map packetCost).sum

/-- The initial bundle bytes and remaining limit of one response in
sendLoop: a leftover packet (Go nextP) is written first, unconditionally
and with no capacity check, and the limit (a Go int, possibly going
negative) is decremented by its cost. -/
def bundleStart (nextP : List Nat) : List Nat × Int :=
  if 0 < nextP.length then
    (packetEncoding nextP, (maxEncodedPayload : Int) - packetCost nextP)
  else ([], (maxEncodedPayload : Int))

/-- The dequeue loop of sendLoop over the packets the outgoing queue
delivers, in order: the first packet whose cost exceeds the remaining
limit is stashed (the next response's nextP) and ends the bundle; every
other packet is appended as a 2-byte big-endian length plus bytes and the
limit drops by its cost. Returns the bundle bytes, the included packets
and the stashed packet. -/
def bundlePackets : Int → List (List Nat) →
    List Nat × List (List Nat) × Option (List Nat)
  | _, [] => ([], [], none)
  | limit, p :: ps =>
    if limit < packetCost p then ([], [], some p)
    else
      let r := bundlePackets (limit - packetCost p) ps
      (packetEncoding p ++ r.1, p :: r.2.1, r.2.2)

/-- One whole response bundle of sendLoop: the leftover packet first, then
the dequeued packets. -/
def assembleBundle (nextP : List Nat) (queue : List (List Nat)) :
    List Nat × List (List Nat) × Option (List Nat) :=
  ((bundleStart nextP).1 ++ (bundlePackets (bundleStart nextP).2 queue).1,
    (bundlePackets (bundleStart nextP).2 queue).2.1,
    (bundlePackets (bundleStart nextP).2 queue).2.2)

theorem bundlePackets_spec (queue : List (List Nat)) : ∀ (limit : Int),
    (bundlePackets limit queue).1 =
      ((bundlePackets limit queue).2.1.map packetEncoding).flatten ∧
    (∃ t, queue = (bundlePackets limit queue).2.1 ++ t) ∧
    ((bundlePackets limit queue).2.2 = none →
      (bundlePackets limit queue).2.1 = queue) ∧
    (∀ p, (bundlePackets limit queue).2.2 = some p →
      queue = (bundlePackets limit queue).2.1 ++
        p :: queue.drop ((bundlePackets limit queue).2.1.length + 1) ∧
      limit - costSum (bundlePackets limit queue).2.1 < packetCost p) ∧
    (∀ i, i < (bundlePackets limit queue).2.1.length →
      packetCost ((bundlePackets limit queue).2.1.getD i []) ≤
        limit - costSum ((bundlePackets limit queue).2.1.take i)) := by
  induction queue with
  | nil =>
    intro limit
    refine ⟨rfl, ⟨[], rfl⟩, fun _ => rfl, ?_, ?_⟩
    · intro p hp
      cases hp
    · intro i hi
      simp [bundlePackets] at hi
  | cons p ps ih =>
    intro limit
    by_cases hfit : limit < packetCost p
    · have hb : bundlePackets limit (p :: ps) = ([], [], some p) := by
        simp [bundlePackets, hfit]
      rw [hb]
      refine ⟨rfl, ⟨p :: ps, rfl⟩, (by intro hcon; cases hcon), ?_, ?_⟩
      · intro q hq
        cases hq
        refine ⟨rfl, ?_⟩
        simpa [costSum] using hfit
      · intro i hi
        simp at hi
    · have hnfit : ¬(limit < packetCost p) := hfit
      have hb : bundlePackets limit (p :: ps) =
          (packetEncoding p ++ (bundlePackets (limit - packetCost p) ps).1,
            p :: (bundlePackets (limit - packetCost p) ps).2.1,
            (bundlePackets (limit - packetCost p) ps).2.2) := by
        simp [bundlePackets, hnfit]
      obtain ⟨ih1, ⟨t, ih2⟩, ih3, ih4, ih5⟩ := ih (limit - packetCost p)
      rw [hb]
      push_neg at hfit
      refine ⟨?_, ?_, ?_, ?_, ?_⟩
      · show packetEncoding p ++ (bundlePackets (limit - packetCost p) ps).1 =
          ((p :: (bundlePackets (limit - packetCost p) ps).2.1).map
            packetEncoding).flatten
        rw [List.map_cons, List.flatten_cons, ih1]
      · exact ⟨t, by rw [List.cons_append, ← ih2]⟩
      · intro hnone
        show p :: (bundlePackets (limit - packetCost p) ps).2.1 = p :: ps
        rw [ih3 hnone]
      · intro q hq
        obtain ⟨e1, e2⟩ := ih4 q hq
        constructor
        · show p :: ps = (p :: (bundlePackets (limit - packetCost p) ps).2.1)
            ++ q :: (p :: ps).drop
              ((p :: (bundlePackets (limit - packetCost p) ps).2.1).length + 1)
          rw [List.cons_append]
          have hdrop : (p :: ps).drop
              ((p :: (bundlePackets (limit - packetCost p) ps).2.1).length + 1) =
              ps.drop ((bundlePackets (limit - packetCost p) ps).2.1.length + 1) := by
            simp [List.length_cons]
          rw [hdrop, ← e1]
        · have hcs : costSum (p :: (bundlePackets (limit - packetCost p) ps).2.1)
              = packetCost p +
                costSum (bundlePackets (limit - packetCost p) ps).2.1 := by
            simp [costSum]
          show limit - costSum (p :: (bundlePackets (limit - packetCost p) ps).2.1)
            < packetCost q
          rw [hcs]
          omega
      · intro i hi
        match i with
        | 0 =>
          show packetCost ((p :: (bundlePackets (limit - packetCost p) ps).2.1).getD 0 [])
            ≤ limit - costSum ((p :: (bundlePackets (limit - packetCost p) ps).2.1).take 0)
          simpa [costSum] using hfit
        | j + 1 =>
          have hj : j < (bundlePackets (limit - packetCost p) ps).2.1.length := by
            simpa using hi
          have hrec := ih5 j hj
          have hcs : costSum ((p :: (bundlePackets (limit - packetCost p) ps).2.1).take (j + 1))
              = packetCost p +
                costSum ((bundlePackets (limit - packetCost p) ps).2.1.take j) := by
            simp [costSum]
          show packetCost ((p :: (bundlePackets (limit - packetCost p) ps).2.1).getD (j + 1) [])
            ≤ limit - costSum ((p :: (bundlePackets (limit - packetCost p) ps).2.1).take (j + 1))
          rw [List.getD_cons_succ, hcs]
          omega

/-- C9: the order inside one sendLoop response bundle: the leftover packet
nextP, if any, comes first, written unconditionally with no capacity check
(the limit may go negative); then the packets delivered by the client's
outgoing queue, in dequeue order, each within the remaining capacity; the
first delivered packet whose encoded cost exceeds the remaining capacity
is not included but stashed as the next response's leftover, ending the
bundle; when nothing is stashed the whole delivered queue was bundled. -/
theorem sendLoop_bundle_order (nextP : List Nat) (queue : List (List Nat))
    (payload : List Nat) (included : List (List Nat))
    (stash : Option (List Nat))
    (h : assembleBundle nextP queue = (payload, included, stash)) :
    (nextP.length = 0 →
      payload = (included.map packetEncoding).flatten) ∧
    (0 < nextP.length →
      payload = packetEncoding nextP ++
        (included.map packetEncoding).flatten) ∧
    (∃ t, queue = included ++ t) ∧
    (stash = none → included = queue) ∧
    (∀ p, stash = some p →
      queue = included ++ p :: queue.drop (included.length + 1) ∧
      (bundleStart nextP).2 - costSum included < packetCost p) ∧
    (∀ i, i < included.length →
      packetCost (included.getD i []) ≤
        (bundleStart nextP).2 - costSum (included.take i)) := by
  simp only [assembleBundle, Prod.mk.injEq] at h
  obtain ⟨hpay, hinc, hst⟩ := h
  subst hpay
  subst hinc
  subst hst
  obtain ⟨s1, s2, s3, s4, s5⟩ := bundlePackets_spec queue (bundleStart nextP).2
  refine ⟨?_, ?_, s2, s3, s4, s5⟩
  · intro h0
    have hb1 : (bundleStart nextP).1 = [] := by
      simp [bundleStart, h0]
    rw [s1, hb1]
    exact List.nil_append _
  · intro hpos
    have hb1 : (bundleStart nextP).1 = packetEncoding nextP := by
      simp [bundleStart, hpos]
    rw [s1, hb1]

set_option maxRecDepth 20000 in
/-- Witness for sendLoop_bundle_order: a 929-byte leftover overfills the
930-byte capacity on its own (no capacity check stops it), and the first
queued packet is stashed. -/
theorem sendLoop_bundle_order_witness :
    assembleBundle (List.replicate 929 7) [[5]] =
      (packetEncoding (List.replicate 929 7), [], some [5]) ∧
    [[5]] = ([] : List (List Nat)) ++ [5] :: List.drop 1 [[5]] ∧
    (bundleStart (List.replicate 929 7)).2 - costSum [] < packetCost [5] := by
  have heq : assembleBundle (List.replicate 929 7) [[5]] =
      (packetEncoding (List.replicate 929 7), [], some [5]) := by decide
  have h := sendLoop_bundle_order (List.replicate 929 7) [[5]]
    (packetEncoding (List.replicate 929 7)) [] (some [5]) heq
  exact ⟨heq, (h.2.2.2.2.1 [5] rfl).1, (h.2.2.2.2.1 [5] rfl).2⟩

end DnsttServer
